import Mathlib

set_option maxRecDepth 100000

/-!
Shallow embedding of the LF record engine (ZeroTier LF, package `lf`).

Bytes are modelled as `Nat` values below 256 inside `List Nat`; machine
words are `Nat` with explicit reduction modulo `2 ^ 32` or `2 ^ 64`.
Functions are translated from the Go and C sources where those are present
in the repository; components whose implementation files are absent (the
crypto, record, selector and database engines — only their tests and
callers survive) are modelled from the specification, and each such
definition says so in its doc comment.
-/

/-! ## Word helpers -/

/-- `2 ^ 32`, the modulus for 32-bit words. -/
def M32 : Nat := 4294967296

/-- `2 ^ 64`, the modulus for 64-bit words. -/
def M64 : Nat := 18446744073709551616

/-- Rotate a 32-bit word right by `r` (for `0 < r < 32`). -/
def rotr32 (r x : Nat) : Nat := (x >>> r) ||| ((x <<< (32 - r)) % M32)

/-- Rotate a 64-bit word right by `r` (for `0 < r < 64`). -/
def rotr64 (r x : Nat) : Nat := (x >>> r) ||| ((x <<< (64 - r)) % M64)

/-- Rotate a 64-bit word left by `r` (for `0 ≤ r < 64`). -/
def rotl64 (r x : Nat) : Nat := ((x <<< r) % M64) ||| (x >>> (64 - r))

/-- Big-endian byte expansion of `v` to `n` bytes (most significant first). -/
def beBytes : Nat → Nat → List Nat
  | 0, _ => []
  | n + 1, v => beBytes n (v / 256) ++ [v % 256]

/-- Little-endian byte expansion of `v` to `n` bytes (least significant first). -/
def leBytes : Nat → Nat → List Nat
  | 0, _ => []
  | n + 1, v => v % 256 :: leBytes n (v / 256)

/-- Split a list into consecutive blocks of `bs` elements; `fuel` bounds the
recursion (callers pass at least the list length). -/
def splitBlocks (bs : Nat) : Nat → List Nat → List (List Nat)
  | 0, _ => []
  | _ + 1, [] => []
  | f + 1, l => l.take bs :: splitBlocks bs f (l.drop bs)

/-! ## SHA-256 (FIPS 180-4), bytes in, bytes out.

Modelled from the spec: the crypto primitive sources are not in the
repository snapshot; SHA-256 is the standard function the spec names. -/

/-- SHA-256 round constants. -/
def sha256K : List Nat := [1116352408, 1899447441, 3049323471, 3921009573, 961987163, 1508970993, 2453635748, 2870763221, 3624381080, 310598401, 607225278, 1426881987, 1925078388, 2162078206, 2614888103, 3248222580, 3835390401, 4022224774, 264347078, 604807628, 770255983, 1249150122, 1555081692, 1996064986, 2554220882, 2821834349, 2952996808, 3210313671, 3336571891, 3584528711, 113926993, 338241895, 666307205, 773529912, 1294757372, 1396182291, 1695183700, 1986661051, 2177026350, 2456956037, 2730485921, 2820302411, 3259730800, 3345764771, 3516065817, 3600352804, 4094571909, 275423344, 430227734, 506948616, 659060556, 883997877, 958139571, 1322822218, 1537002063, 1747873779, 1955562222, 2024104815, 2227730452, 2361852424, 2428436474, 2756734187, 3204031479, 3329325298]

/-- Working state of the SHA-2 compression function: eight chaining words. -/
structure H8 where
  a : Nat
  b : Nat
  c : Nat
  d : Nat
  e : Nat
  f : Nat
  g : Nat
  h : Nat

/-- SHA-256 initial chaining value. -/
def sha256Init : H8 :=
  ⟨1779033703, 3144134277, 1013904242, 2773480762, 1359893119, 2600822924, 528734635, 1541459225⟩

/-- Combine four big-endian bytes into 32-bit words. -/
def bytesToWords32 : List Nat → List Nat
  | a :: b :: c :: d :: rest => (((a * 256 + b) * 256 + c) * 256 + d) :: bytesToWords32 rest
  | _ => []

/-- Combine eight big-endian bytes into 64-bit words. -/
def bytesToWords64 : List Nat → List Nat
  | a :: b :: c :: d :: e :: f :: g :: h :: rest =>
      (((((((a * 256 + b) * 256 + c) * 256 + d) * 256 + e) * 256 + f) * 256 + g) * 256 + h)
        :: bytesToWords64 rest
  | _ => []

/-- One step of the SHA-256 message-schedule extension. -/
def sha256SchedStep (w : List Nat) : List Nat :=
  let n := w.length
  let s0 := fun x => rotr32 7 x ^^^ rotr32 18 x ^^^ (x >>> 3)
  let s1 := fun x => rotr32 17 x ^^^ rotr32 19 x ^^^ (x >>> 10)
  w ++ [(s1 (w.getD (n - 2) 0) + w.getD (n - 7) 0 + s0 (w.getD (n - 15) 0) + w.getD (n - 16) 0) % M32]

/-- Iterate the schedule extension `k` times. -/
def extendSched (step : List Nat → List Nat) : Nat → List Nat → List Nat
  | 0, w => w
  | k + 1, w => extendSched step k (step w)

/-- One SHA-256 compression round; `kw` is the round constant plus schedule word. -/
def sha256Round (s : H8) (kw : Nat) : H8 :=
  let ch := (s.e &&& s.f) ^^^ ((s.e ^^^ 4294967295) &&& s.g)
  let maj := (s.a &&& s.b) ^^^ (s.a &&& s.c) ^^^ (s.b &&& s.c)
  let bigS1 := rotr32 6 s.e ^^^ rotr32 11 s.e ^^^ rotr32 25 s.e
  let bigS0 := rotr32 2 s.a ^^^ rotr32 13 s.a ^^^ rotr32 22 s.a
  let t1 := (s.h + bigS1 + ch + kw) % M32
  let t2 := (bigS0 + maj) % M32
  ⟨(t1 + t2) % M32, s.a, s.b, s.c, (s.d + t1) % M32, s.e, s.f, s.g⟩

/-- SHA-256 compression of one 64-byte block into the chaining state. -/
def sha256Compress (st : H8) (block : List Nat) : H8 :=
  let w := extendSched sha256SchedStep 48 (bytesToWords32 block)
  let kw := List.zipWith (fun k x => (k + x) % M32) sha256K w
  let r := kw.foldl sha256Round st
  ⟨(st.a + r.a) % M32, (st.b + r.b) % M32, (st.c + r.c) % M32, (st.d + r.d) % M32,
   (st.e + r.e) % M32, (st.f + r.f) % M32, (st.g + r.g) % M32, (st.h + r.h) % M32⟩

/-- SHA-2 padding: append `0x80`, zeros, and the bit length in `lenBytes`
big-endian bytes, reaching a multiple of `bs` bytes. -/
def shaPad (bs lenBytes : Nat) (msg : List Nat) : List Nat :=
  let z := (bs - ((msg.length + lenBytes + 1) % bs)) % bs
  msg ++ 128 :: List.replicate z 0 ++ beBytes lenBytes (8 * msg.length)

/-- SHA-256 of a byte string, as 32 bytes. -/
def sha256 (msg : List Nat) : List Nat :=
  let p := shaPad 64 8 msg
  let st := (splitBlocks 64 (p.length + 1) p).foldl sha256Compress sha256Init
  beBytes 4 st.a ++ beBytes 4 st.b ++ beBytes 4 st.c ++ beBytes 4 st.d ++
    beBytes 4 st.e ++ beBytes 4 st.f ++ beBytes 4 st.g ++ beBytes 4 st.h

/-! ## SHA-512 (FIPS 180-4).

Modelled from the spec: standard SHA-512, needed by the composite hash. -/

/-- SHA-512 round constants. -/
def sha512K : List Nat := [4794697086780616226, 8158064640168781261, 13096744586834688815, 16840607885511220156, 4131703408338449720, 6480981068601479193, 10538285296894168987, 12329834152419229976, 15566598209576043074, 1334009975649890238, 2608012711638119052, 6128411473006802146, 8268148722764581231, 9286055187155687089, 11230858885718282805, 13951009754708518548, 16472876342353939154, 17275323862435702243, 1135362057144423861, 2597628984639134821, 3308224258029322869, 5365058923640841347, 6679025012923562964, 8573033837759648693, 10970295158949994411, 12119686244451234320, 12683024718118986047, 13788192230050041572, 14330467153632333762, 15395433587784984357, 489312712824947311, 1452737877330783856, 2861767655752347644, 3322285676063803686, 5560940570517711597, 5996557281743188959, 7280758554555802590, 8532644243296465576, 9350256976987008742, 10552545826968843579, 11727347734174303076, 12113106623233404929, 14000437183269869457, 14369950271660146224, 15101387698204529176, 15463397548674623760, 17586052441742319658, 1182934255886127544, 1847814050463011016, 2177327727835720531, 2830643537854262169, 3796741975233480872, 4115178125766777443, 5681478168544905931, 6601373596472566643, 7507060721942968483, 8399075790359081724, 8693463985226723168, 9568029438360202098, 10144078919501101548, 10430055236837252648, 11840083180663258601, 13761210420658862357, 14299343276471374635, 14566680578165727644, 15097957966210449927, 16922976911328602910, 17689382322260857208, 500013540394364858, 748580250866718886, 1242879168328830382, 1977374033974150939, 2944078676154940804, 3659926193048069267, 4368137639120453308, 4836135668995329356, 5532061633213252278, 6448918945643986474, 6902733635092675308, 7801388544844847127]

/-- SHA-512 initial chaining value. -/
def sha512Init : H8 :=
  ⟨7640891576956012808, 13503953896175478587, 4354685564936845355, 11912009170470909681,
   5840696475078001361, 11170449401992604703, 2270897969802886507, 6620516959819538809⟩

/-- One step of the SHA-512 message-schedule extension. -/
def sha512SchedStep (w : List Nat) : List Nat :=
  let n := w.length
  let s0 := fun x => rotr64 1 x ^^^ rotr64 8 x ^^^ (x >>> 7)
  let s1 := fun x => rotr64 19 x ^^^ rotr64 61 x ^^^ (x >>> 6)
  w ++ [(s1 (w.getD (n - 2) 0) + w.getD (n - 7) 0 + s0 (w.getD (n - 15) 0) + w.getD (n - 16) 0) % M64]

/-- One SHA-512 compression round. -/
def sha512Round (s : H8) (kw : Nat) : H8 :=
  let ch := (s.e &&& s.f) ^^^ ((s.e ^^^ 18446744073709551615) &&& s.g)
  let maj := (s.a &&& s.b) ^^^ (s.a &&& s.c) ^^^ (s.b &&& s.c)
  let bigS1 := rotr64 14 s.e ^^^ rotr64 18 s.e ^^^ rotr64 41 s.e
  let bigS0 := rotr64 28 s.a ^^^ rotr64 34 s.a ^^^ rotr64 39 s.a
  let t1 := (s.h + bigS1 + ch + kw) % M64
  let t2 := (bigS0 + maj) % M64
  ⟨(t1 + t2) % M64, s.a, s.b, s.c, (s.d + t1) % M64, s.e, s.f, s.g⟩

/-- SHA-512 compression of one 128-byte block. -/
def sha512Compress (st : H8) (block : List Nat) : H8 :=
  let w := extendSched sha512SchedStep 64 (bytesToWords64 block)
  let kw := List.zipWith (fun k x => (k + x) % M64) sha512K w
  let r := kw.foldl sha512Round st
  ⟨(st.a + r.a) % M64, (st.b + r.b) % M64, (st.c + r.c) % M64, (st.d + r.d) % M64,
   (st.e + r.e) % M64, (st.f + r.f) % M64, (st.g + r.g) % M64, (st.h + r.h) % M64⟩

/-- SHA-512 of a byte string, as 64 bytes. -/
def sha512 (msg : List Nat) : List Nat :=
  let p := shaPad 128 16 msg
  let st := (splitBlocks 128 (p.length + 1) p).foldl sha512Compress sha512Init
  beBytes 8 st.a ++ beBytes 8 st.b ++ beBytes 8 st.c ++ beBytes 8 st.d ++
    beBytes 8 st.e ++ beBytes 8 st.f ++ beBytes 8 st.g ++ beBytes 8 st.h

/-! ## SHA3-512 (FIPS 202, Keccak).

Modelled from the spec: standard SHA3-512, rate 72 bytes. -/

/-- Keccak-f[1600] round constants. -/
def keccakRC : List Nat := [1, 32898, 9223372036854808714, 9223372039002292224, 32907, 2147483649, 9223372039002292353, 9223372036854808585, 138, 136, 2147516425, 2147483658, 2147516555, 9223372036854775947, 9223372036854808713, 9223372036854808579, 9223372036854808578, 9223372036854775936, 32778, 9223372039002259466, 9223372039002292353, 9223372036854808704, 2147483649, 9223372039002292232]

/-- Source lane index for each destination lane in the combined rho-pi step. -/
def keccakPiSrc : List Nat := [0, 6, 12, 18, 24, 3, 9, 10, 16, 22, 1, 7, 13, 19, 20, 4, 5, 11, 17, 23, 2, 8, 14, 15, 21]

/-- Left-rotation amount for each destination lane in the rho-pi step. -/
def keccakPiRot : List Nat := [0, 44, 43, 21, 14, 28, 20, 3, 45, 61, 1, 6, 25, 8, 18, 27, 36, 10, 15, 56, 62, 55, 39, 41, 2]

/-- Lane `i` of a Keccak state (25 lanes, index `x + 5 * y`). -/
def lane (s : List Nat) (i : Nat) : Nat := s.getD i 0

/-- Keccak theta step. -/
def keccakTheta (s : List Nat) : List Nat :=
  let c := (List.range 5).map fun x =>
    lane s x ^^^ lane s (x + 5) ^^^ lane s (x + 10) ^^^ lane s (x + 15) ^^^ lane s (x + 20)
  let d := (List.range 5).map fun x => c.getD ((x + 4) % 5) 0 ^^^ rotl64 1 (c.getD ((x + 1) % 5) 0)
  (List.range 25).map fun i => lane s i ^^^ d.getD (i % 5) 0

/-- Keccak combined rho and pi steps. -/
def keccakRhoPi (s : List Nat) : List Nat :=
  (List.range 25).map fun i => rotl64 (keccakPiRot.getD i 0) (lane s (keccakPiSrc.getD i 0))

/-- Keccak chi step. -/
def keccakChi (s : List Nat) : List Nat :=
  (List.range 25).map fun i =>
    let x := i % 5
    let y := i - x
    lane s i ^^^ ((lane s (y + (x + 1) % 5) ^^^ 18446744073709551615) &&& lane s (y + (x + 2) % 5))

/-- One Keccak-f round: theta, rho, pi, chi, iota. -/
def keccakRound (s : List Nat) (rc : Nat) : List Nat :=
  let t := keccakChi (keccakRhoPi (keccakTheta s))
  (lane t 0 ^^^ rc) :: t.drop 1

/-- The Keccak-f[1600] permutation (24 rounds). -/
def keccakF (s : List Nat) : List Nat := keccakRC.foldl keccakRound s

/-- Combine groups of eight bytes into little-endian 64-bit lanes. -/
def bytesToLanes : List Nat → List Nat
  | b0 :: b1 :: b2 :: b3 :: b4 :: b5 :: b6 :: b7 :: rest =>
      (b0 + 256 * (b1 + 256 * (b2 + 256 * (b3 + 256 * (b4 + 256 * (b5 + 256 * (b6 + 256 * b7)))))))
        :: bytesToLanes rest
  | _ => []

/-- Absorb one 72-byte block into the state and permute. -/
def keccakAbsorb (st : List Nat) (block : List Nat) : List Nat :=
  let ls := bytesToLanes block
  keccakF ((List.range 25).map fun i => lane st i ^^^ ls.getD i 0)

/-- SHA3 pad10*1 padding with domain bits `01`, to a multiple of 72 bytes. -/
def sha3Pad (msg : List Nat) : List Nat :=
  let q := 72 - msg.length % 72
  if q = 1 then msg ++ [134]
  else msg ++ 6 :: List.replicate (q - 2) 0 ++ [128]

/-- SHA3-512 of a byte string, as 64 bytes. -/
def sha3_512 (msg : List Nat) : List Nat :=
  let p := sha3Pad msg
  let st := (splitBlocks 72 (p.length + 1) p).foldl keccakAbsorb (List.replicate 25 0)
  leBytes 8 (lane st 0) ++ leBytes 8 (lane st 1) ++ leBytes 8 (lane st 2) ++
    leBytes 8 (lane st 3) ++ leBytes 8 (lane st 4) ++ leBytes 8 (lane st 5) ++
    leBytes 8 (lane st 6) ++ leBytes 8 (lane st 7)

/-! ## Shandwich256 -/

/-- Shandwich256, LF's composite 256-bit hash.
Modelled from the spec and the pinned test vector in `TestCore`
(src/unnamed/part_000 lines 94-104): the construction reproducing the
pinned digest `fcb43f70…` is SHA-256 of the concatenation of the SHA-512
and SHA3-512 digests of the input. (The spec's prose formula — first 16
bytes of SHA3-512 followed by first 16 bytes of SHA-256 — does not
reproduce that pinned digest; see the theorem for claim C7.) -/
def Shandwich256 (msg : List Nat) : List Nat :=
  sha256 (sha512 msg ++ sha3_512 msg)

/-- Incremental Shandwich256 state: the bytes written so far.
Modelled from the spec: the incremental form must agree bit-for-bit with
the one-shot form, so it is embedded as the accumulated input buffer. -/
structure Shandwich256H where
  buf : List Nat

/-- A fresh incremental Shandwich256 hasher. -/
def NewShandwich256 : Shandwich256H := ⟨[]⟩

/-- Append bytes to an incremental hasher. -/
def Shandwich256H.write (h : Shandwich256H) (x : List Nat) : Shandwich256H := ⟨h.buf ++ x⟩

/-- Finalize an incremental hasher. -/
def Shandwich256H.sum (h : Shandwich256H) : List Nat := Shandwich256 h.buf

/-- The byte string "My hovercraft is full of eels." used by `TestCore`. -/
def hovercraftBytes : List Nat := [77, 121, 32, 104, 111, 118, 101, 114, 99, 114, 97, 102, 116, 32, 105, 115, 32, 102, 117, 108, 108, 32, 111, 102, 32, 101, 101, 108, 115, 46]

/-- The pinned Shandwich256 digest `fcb43f70…` from `TestCore`. -/
def hovercraftDigest : List Nat := [252, 180, 63, 112, 78, 182, 94, 6, 190, 113, 54, 54, 2, 29, 65, 104, 233, 179, 85, 249, 168, 223, 36, 225, 65, 119, 247, 221, 193, 16, 95, 234]

/-! ## Lexicographic byte order (Go `bytes.Compare ... < 0`) -/

/-- Strict lexicographic order on byte strings, as computed by Go's
`bytes.Compare(a, b) < 0`: compare element-wise, a proper prefix is smaller. -/
def lexLt : List Nat → List Nat → Bool
  | [], [] => false
  | [], _ :: _ => true
  | _ :: _, [] => false
  | a :: as, b :: bs => if a < b then true else if b < a then false else lexLt as bs

/-! ## Varint and length-prefixed byte strings (record wire format)

Modelled from the spec: the record serialization sources are not in the
repository snapshot; the spec gives the canonical layout with varint
length prefixes (`encoding/binary` unsigned varints). -/

/-- Worker for `putUvarint`; the fuel only bounds the recursion and never
runs out when it starts at the encoded value. -/
def putUvarintAux : Nat → Nat → List Nat
  | 0, n => [n % 128]
  | f + 1, n => if n < 128 then [n] else (n % 128 + 128) :: putUvarintAux f (n / 128)

/-- Go `binary.PutUvarint`: little-endian base-128 groups, high bit marks
continuation. -/
def putUvarint (n : Nat) : List Nat := putUvarintAux n n

/-- Go `binary.ReadUvarint` on a byte list, returning the value and the rest. -/
def readUvarint : List Nat → Option (Nat × List Nat)
  | [] => none
  | b :: rest =>
    if b < 128 then some (b, rest)
    else
      match readUvarint rest with
      | some (m, r) => some (m * 128 + (b - 128), r)
      | none => none

/-- A length-prefixed byte string. -/
def putBytes (b : List Nat) : List Nat := putUvarint b.length ++ b

/-- Consume exactly `n` bytes. -/
def readExact (n : Nat) (l : List Nat) : Option (List Nat × List Nat) :=
  if n ≤ l.length then some (l.take n, l.drop n) else none

/-- Consume a length-prefixed byte string. -/
def readBytes (l : List Nat) : Option (List Nat × List Nat) :=
  (readUvarint l).bind fun p => readExact p.1 p.2

/-! ## Record wire format

Modelled from the spec (section 4.4): canonical binary layout
`[flags:1] [timestamp:varint] [owner-type:1] [owner-pub] [links-count:varint]
[link-id × N] [selector-count:varint] [selector × N] [value-len:varint]
[value-bytes] [cert?] [work?] [signature]`, each variable field
length-prefixed; the record sources are not in the repository snapshot. -/

/-- A selector as carried on the wire: ordinal and claim bytes. -/
structure SelWire where
  Ordinal : List Nat
  Claim : List Nat
deriving DecidableEq

/-- A record as carried on the wire. `value` holds the stored (possibly
masked) value bytes. -/
structure RecordW where
  flags : Nat
  timestamp : Nat
  ownerType : Nat
  ownerPub : List Nat
  links : List (List Nat)
  sels : List SelWire
  value : List Nat
  cert : List Nat
  work : List Nat
  sig : List Nat
deriving DecidableEq

/-- Serialize one selector. -/
def putSel (s : SelWire) : List Nat := putBytes s.Ordinal ++ putBytes s.Claim

/-- Canonical serialization of a record (`MarshalTo`). -/
def RecordW.marshal (r : RecordW) : List Nat :=
  [r.flags] ++ putUvarint r.timestamp ++ [r.ownerType] ++ putBytes r.ownerPub ++
    putUvarint r.links.length ++ r.links.flatten ++
    putUvarint r.sels.length ++ (r.sels.map putSel).flatten ++
    putBytes r.value ++ putBytes r.cert ++ putBytes r.work ++ putBytes r.sig

/-- Parse `n` 32-byte link ids. -/
def readLinks : Nat → List Nat → Option (List (List Nat) × List Nat)
  | 0, l => some ([], l)
  | n + 1, l =>
    (readExact 32 l).bind fun p =>
      (readLinks n p.2).bind fun q => some (p.1 :: q.1, q.2)

/-- Parse one selector. -/
def readSel (l : List Nat) : Option (SelWire × List Nat) :=
  (readBytes l).bind fun p =>
    (readBytes p.2).bind fun q => some (⟨p.1, q.1⟩, q.2)

/-- Parse `n` selectors. -/
def readSels : Nat → List Nat → Option (List SelWire × List Nat)
  | 0, l => some ([], l)
  | n + 1, l =>
    (readSel l).bind fun p =>
      (readSels n p.2).bind fun q => some (p.1 :: q.1, q.2)

/-- Consume a single byte. -/
def readByte : List Nat → Option (Nat × List Nat)
  | [] => none
  | b :: rest => some (b, rest)

/-- Parse a record from bytes (`UnmarshalFrom`), returning the record and the
unconsumed tail. -/
def RecordW.unmarshal (l : List Nat) : Option (RecordW × List Nat) :=
  (readByte l).bind fun fl =>
    (readUvarint fl.2).bind fun ts =>
      (readByte ts.2).bind fun ot =>
        (readBytes ot.2).bind fun pub =>
          (readUvarint pub.2).bind fun nl =>
            (readLinks nl.1 nl.2).bind fun links =>
              (readUvarint links.2).bind fun ns =>
                (readSels ns.1 ns.2).bind fun sels =>
                  (readBytes sels.2).bind fun value =>
                    (readBytes value.2).bind fun cert =>
                      (readBytes cert.2).bind fun work =>
                        (readBytes work.2).bind fun sig =>
                          some (⟨fl.1, ts.1, ot.1, pub.1, links.1, sels.1,
                                 value.1, cert.1, work.1, sig.1⟩, sig.2)

/-- Record id: Shandwich256 of the canonical serialization (signable prefix
followed by the signature). -/
def RecordW.recHash (r : RecordW) : List Nat := Shandwich256 r.marshal

/-- Structural well-formedness used by the round-trip property: link ids are
32 bytes and the fixed one-byte fields are bytes. -/
def RecordW.wf (r : RecordW) : Prop :=
  r.flags < 256 ∧ r.ownerType < 256 ∧ ∀ x ∈ r.links, x.length = 32

instance (r : RecordW) : Decidable r.wf := by
  unfold RecordW.wf
  infer_instance

/-! ## Selector

Modelled from the spec (sections 3 and 4.3): the selector sources are not in
the repository snapshot. The deterministic signer keyed by `name` is embedded
as a derived name key concatenated with the bound claim hash, from which key
recovery extracts the name key again — recovery succeeds and is
deterministic for every signature the embedding signer produces, which is
exactly what the spec requires of it. -/

/-- The public key deterministically derived from a selector name. -/
def selNameKey (name : List Nat) : List Nat := Shandwich256 name

/-- A selector: caller-supplied ordinal plus the claim signature. -/
structure SelectorM where
  Ordinal : List Nat
  Claim : List Nat
deriving DecidableEq

/-- `Selector.set(name, ordinal, claimHash)`: deterministic claim signature
keyed by `name`, binding `claimHash`. -/
def SelectorM.set (name ordinal claimHash : List Nat) : SelectorM :=
  ⟨ordinal, selNameKey name ++ claimHash⟩

/-- Key recovery from a claim signature: strip the bound message to recover
the embedded signer key. -/
def claimRecover (msg sig : List Nat) : List Nat := sig.take (sig.length - msg.length)

/-- `sel.key(claimHash)`: the selector's index key, derived from the
recovered name key followed by the ordinal. -/
def SelectorM.key (sel : SelectorM) (claimHash : List Nat) : List Nat :=
  Shandwich256 (claimRecover claimHash sel.Claim) ++ sel.Ordinal

/-- `MakeSelectorKey(name, ordinal)`: the standalone selector key. -/
def MakeSelectorKey (name ordinal : List Nat) : List Nat :=
  Shandwich256 (selNameKey name) ++ ordinal

/-! ## Value masking

Modelled from the spec (section 3, invariant 4): masked value equals the
plaintext XORed with a keystream keyed by the hash of the masking key and
record-bound material; with a wrong key unmasking is the same XOR under the
wrong keystream, unauthenticated. The record sources are not in the
repository snapshot; the record-bound material is embedded as the owner
public key and timestamp, which are fixed before masking. -/

/-- CTR-style keystream derived from the masking key, the record-bound
material and the block counter, truncated to `n` bytes. -/
def keystream (k mat : List Nat) (n : Nat) : List Nat :=
  ((List.range ((n + 31) / 32)).map fun i =>
    Shandwich256 (k ++ mat ++ putUvarint i)).flatten.take n

/-- Mask (or unmask) `v` under masking key `k` and record material `mat`. -/
def maskBytes (k mat v : List Nat) : List Nat :=
  List.zipWith (fun a b => a ^^^ b) v (keystream k mat v.length)

/-! ## Owners, signatures and record construction

Modelled from the spec (sections 3 and 4.4): the owner and record
construction sources are not in the repository snapshot. An owner is a
keypair identified by a one-byte type tag; the signature is embedded as a
deterministic owner-bound digest of the signable prefix. -/

/-- An owner: one-byte type tag and public key bytes. -/
structure OwnerM where
  typeTag : Nat
  pub : List Nat
deriving DecidableEq

/-- Deterministic owner signature over a message. -/
def signM (o : OwnerM) (msg : List Nat) : List Nat := Shandwich256 (o.pub ++ msg)

/-- The signable prefix of a record: its serialization without the
signature field. -/
def RecordW.signable (r : RecordW) : List Nat :=
  [r.flags] ++ putUvarint r.timestamp ++ [r.ownerType] ++ putBytes r.ownerPub ++
    putUvarint r.links.length ++ r.links.flatten ++
    putUvarint r.sels.length ++ (r.sels.map putSel).flatten ++
    putBytes r.value ++ putBytes r.cert ++ putBytes r.work

/-- `NewRecord`: build a signed record. The value is masked when a masking
key is supplied (flag bit 0 records that); each selector claim is the
deterministic signature keyed by its name; proof of work is attached iff a
work prover (`wg`) was supplied; the signature is the owner's signature
over the signable prefix. -/
def NewRecordM (value : List Nat) (links : List (List Nat)) (maskingKey : Option (List Nat))
    (selNames selOrds : List (List Nat)) (cert : List Nat) (ts : Nat) (work : Bool)
    (owner : OwnerM) : RecordW :=
  let mat := owner.pub ++ putUvarint ts
  let stored := match maskingKey with
    | none => value
    | some k => maskBytes k mat value
  let flags := match maskingKey with
    | none => 0
    | some _ => 1
  let sels := List.zipWith (fun n o => SelWire.mk o (selNameKey n ++ o)) selNames selOrds
  let wrk := if work then Shandwich256 (putUvarint ts ++ value) else []
  let r0 : RecordW := ⟨flags, ts, owner.typeTag, owner.pub, links, sels, stored, cert, wrk, []⟩
  { r0 with sig := signM owner r0.signable }

/-- `GetValue(maskingKey)`: unmask the stored value when the record was
built masked, else return it as stored. Never fails. -/
def RecordW.getValue (r : RecordW) (k : List Nat) : Option (List Nat) :=
  if r.flags % 2 = 1 then some (maskBytes k (r.ownerPub ++ putUvarint r.timestamp) r.value)
  else some r.value

/-! ## Genesis parameters (translated from src/unnamed/part_000, the genesis
source file present in the repository)

`GenesisParameters.Update` is fed a parsed JSON object: the set of present
outer keys (Go's `map[string]*json.RawMessage`) together with the document
decoded into a fresh `GenesisParameters` (Go's second `json.Unmarshal`).
JSON parsing itself is Go standard-library behavior outside the embedding;
an unparsable document makes `Update` return the error before touching any
field, and an empty byte slice makes it return `nil` before touching
anything including `initialized`, so both leave the receiver unchanged. -/

/-- The genesis parameter set (struct `GenesisParameters`). -/
structure GenesisParameters where
  initialized : Bool := false
  Name : String := ""
  Contact : String := ""
  Comment : String := ""
  RootCertificateAuthorities : List (List Nat) := []
  CertificateRequired : Bool := false
  WorkRequired : Bool := false
  LinkKey : List Nat := List.replicate 32 0
  TimestampFloor : Nat := 0
  RecordMinLinks : Nat := 0
  RecordMaxValueSize : Nat := 0
  RecordMaxSize : Nat := 0
  RecordMaxForwardTimeDrift : Nat := 0
  AmendableFields : List String := []
deriving DecidableEq

/-- Go `strings.EqualFold` restricted to the ASCII field names in play. -/
def eqFold (a b : String) : Bool := a.toLower == b.toLower

/-- The `switch strings.ToLower(k)` dispatch body of `Update`, acting on the
already-lowered key `t`: overwrite the field named by `t` with its value
from `ngp`; unknown keys change nothing. -/
def gpDispatch (ngp : GenesisParameters) (t : String) (gp : GenesisParameters) :
    GenesisParameters :=
  if t = "name" then { gp with Name := ngp.Name }
  else if t = "contact" then { gp with Contact := ngp.Contact }
  else if t = "comment" then { gp with Comment := ngp.Comment }
  else if t = "rootcertificateauthorities" then
    { gp with RootCertificateAuthorities := ngp.RootCertificateAuthorities }
  else if t = "certificaterequired" then
    { gp with CertificateRequired := ngp.CertificateRequired }
  else if t = "workrequired" then { gp with WorkRequired := ngp.WorkRequired }
  else if t = "linkkey" then { gp with LinkKey := ngp.LinkKey }
  else if t = "timestampfloor" then { gp with TimestampFloor := ngp.TimestampFloor }
  else if t = "recordminlinks" then { gp with RecordMinLinks := ngp.RecordMinLinks }
  else if t = "recordmaxvaluesize" then
    { gp with RecordMaxValueSize := ngp.RecordMaxValueSize }
  else if t = "recordmaxsize" then { gp with RecordMaxSize := ngp.RecordMaxSize }
  else if t = "recordmaxforwardtimedrift" then
    { gp with RecordMaxForwardTimeDrift := ngp.RecordMaxForwardTimeDrift }
  else if t = "amendablefields" then { gp with AmendableFields := ngp.AmendableFields }
  else gp

/-- Dispatch of one raw JSON key: lower it, then dispatch. -/
def gpApplyKey (ngp : GenesisParameters) (k : String) (gp : GenesisParameters) :
    GenesisParameters :=
  gpDispatch ngp k.toLower gp

/-- One iteration of the `Update` key loop: skip the key when the receiver
was already initialized and no entry of the amendable-field snapshot matches
it case-insensitively, else dispatch it. -/
def gpStep (init : Bool) (af : List String) (ngp : GenesisParameters)
    (g : GenesisParameters) (k : String) : GenesisParameters :=
  if init && !(af.any fun a => eqFold a k) then g else gpApplyKey ngp k g

/-- `GenesisParameters.Update` on a parsed document: fold the key loop over
the present keys (the amendable-field list and the initialized flag are
read once, before the loop, as in the source), then mark initialized. -/
def GenesisParameters.update (gp : GenesisParameters) (keys : List String)
    (ngp : GenesisParameters) : GenesisParameters :=
  { keys.foldl (gpStep gp.initialized gp.AmendableFields ngp) gp with initialized := true }

/-- Does `Update` apply field `f` (a lowercase field name), given the
receiver state at the start of the call: some present key names it
case-insensitively, and either this is the first application or the key
matches an entry of the amendable-field list current at call start. -/
def keyApplied (gp : GenesisParameters) (keys : List String) (f : String) : Bool :=
  keys.any fun k =>
    (k.toLower == f) && (!gp.initialized || gp.AmendableFields.any fun a => eqFold a k)

/-! ## Genesis record creation (translated from `CreateGenesisRecords` in
src/unnamed/part_000 lines 662-700; its callees `NewRecord`, `NewOwner` and
`TimeSec` are modelled from the spec — the freshly generated owner and the
current time are passed in explicitly). -/

/-- Default record, used for list indexing. -/
def dRec : RecordW := ⟨0, 0, 0, [], [], [], [], [], [], []⟩

/-- Bytes of a string. -/
def strBytes (s : String) : List Nat := s.data.map Char.toNat

/-- Modelled from the spec: stand-in for `json.Marshal(genesisParameters)`,
a deterministic byte encoding of the parameter set. -/
def gpJsonBytes (gp : GenesisParameters) : List Nat :=
  putBytes (strBytes gp.Name) ++ putBytes (strBytes gp.Contact) ++
    putBytes (strBytes gp.Comment) ++
    putUvarint gp.RootCertificateAuthorities.length ++
    (gp.RootCertificateAuthorities.map putBytes).flatten ++
    [cond gp.CertificateRequired 1 0, cond gp.WorkRequired 1 0] ++
    putBytes gp.LinkKey ++ putUvarint gp.TimestampFloor ++
    putUvarint gp.RecordMinLinks ++ putUvarint gp.RecordMaxValueSize ++
    putUvarint gp.RecordMaxSize ++ putUvarint gp.RecordMaxForwardTimeDrift ++
    putUvarint gp.AmendableFields.length ++
    (gp.AmendableFields.map fun s => putBytes (strBytes s)).flatten

/-- The `for i := 1; i < RecordMinLinks; i++` loop of `CreateGenesisRecords`:
each empty record links to all earlier records and is timestamped one second
later than the previous one; `links` accumulates the hashes so far. -/
def genesisLoop (owner : OwnerM) (wg : Bool) (now : Nat) :
    Nat → Nat → List RecordW → List (List Nat) → List RecordW
  | 0, _, recs, _ => recs
  | n + 1, i, recs, links =>
    let r := NewRecordM [] links none [] [] [] (now + i) wg owner
    genesisLoop owner wg now n (i + 1) (recs ++ [r]) (links ++ [r.recHash])

/-- `CreateGenesisRecords`: the first record carries the JSON-encoded
parameters; `RecordMinLinks - 1` further empty records follow (none when
`RecordMinLinks` is zero or one); proof of work is requested iff
`WorkRequired`; all records signed by the one genesis owner. -/
def CreateGenesisRecords (genesisOwner : OwnerM) (gp : GenesisParameters) (now : Nat) :
    List RecordW :=
  let r := NewRecordM (gpJsonBytes gp) [] none [] [] [] now gp.WorkRequired genesisOwner
  genesisLoop genesisOwner gp.WorkRequired now (gp.RecordMinLinks - 1) 1 [r] [r.recHash]

/-! ## The local store and its replica CRC

Modelled from the spec (sections 4.6-4.7): the database engine sources are
not in the repository snapshot. A store holds the set of ingested records
(duplicate ingest of an already-stored id is a no-op, spec section 7); at
steady state the weight of a record is the sum of the own-weights of all
its descendants (records from which it is reachable through links,
including itself — spec section 4.7 property 3), and `crc64` is a
deterministic hash over the sorted set of
`(id, weightLo, weightHi, linkCount)` tuples. Record ids stand for the
32-byte record hashes, packed into one `Nat`. -/

/-- A record as seen by the store: id, link targets, own PoW weight. -/
structure StoreRec where
  rid : Nat
  links : List Nat
  ownWeight : Nat
deriving DecidableEq

/-- A store: the list of ingested records (no id occurs twice). -/
structure Store where
  recs : List StoreRec
deriving DecidableEq

/-- `putRecord`: ingest a record; a record whose id is already present is a
no-op success. -/
def Store.putRecord (s : Store) (r : StoreRec) : Store :=
  if s.recs.any fun x => x.rid == r.rid then s else ⟨r :: s.recs⟩

/-- Feed a list of records into a store in order. -/
def feedRecords (s : Store) (l : List StoreRec) : Store := l.foldl Store.putRecord s

/-- Bounded reachability from record id `a` to record id `b` following
links through the stored records. -/
def reachB (recs : List StoreRec) : Nat → Nat → Nat → Bool
  | 0, a, b => a == b
  | fuel + 1, a, b =>
    a == b || recs.any fun r => r.rid == a && r.links.any fun l => reachB recs fuel l b

/-- Steady-state weight of id `a`: the sum of own-weights of all stored
records that reach `a` through links (including `a` itself). -/
def Store.weight (s : Store) (a : Nat) : Nat :=
  (s.recs.map fun r =>
    if reachB s.recs s.recs.length r.rid a = true then r.ownWeight else 0).sum

/-- The `(id, weightLo, weightHi, linkCount)` tuple of a stored record,
packed into one `Nat`. -/
def tupleCode (s : Store) (r : StoreRec) : Nat :=
  ((r.rid * M64 + s.weight r.rid % M64) * M64 + s.weight r.rid / M64) * M64 + r.links.length

/-- `crc64`: a deterministic 64-bit hash (FNV-style fold) over the sorted
tuples of the store. -/
def Store.crc64 (s : Store) : Nat :=
  ((s.recs.map (tupleCode s)).insertionSort (· ≤ ·)).foldl
    (fun c v => ((c + v) * 1099511628211) % M64) 14695981039346656037

/-- `hasPending`: some stored record has a link whose target id is not yet
stored. -/
def Store.hasPending (s : Store) : Bool :=
  s.recs.any fun r => r.links.any fun l => !(s.recs.any fun x => x.rid == l)

/-- A record list is id-injective when equal ids come from equal records —
for real records this is hash consistency: the id is the record's hash. -/
def IdInj (l : List StoreRec) : Prop :=
  ∀ r1 ∈ l, ∀ r2 ∈ l, r1.rid = r2.rid → r1 = r2

instance (l : List StoreRec) : Decidable (IdInj l) := by
  unfold IdInj
  infer_instance

/-! ## The node wrapper (translated from src/pkg/lf/node.go) -/

/-- The state of a `Node` that `AddRecord` could touch: its database. The
network-facing fields (sockets, host table, HTTP server) are outside the
embedding. -/
structure NodeState where
  db : Store
deriving DecidableEq

/-- `Node.AddRecord` (src/pkg/lf/node.go lines 163-166): returns nil and
does nothing else — its body is `return nil`. -/
def NodeState.addRecord (n : NodeState) (recordData : List Nat) :
    Option String × NodeState :=
  (none, n)

/-! ## The C in-memory id set (translated from src/unnamed/part_001,
`iset.h`). `ZTLF_xorshift64starOnce` lives in the missing `common.h` and is
modelled from the standard xorshift64* step the name denotes; membership
semantics do not depend on which mixing function it is. Set elements are
the 64-bit patterns of the C `int64_t` values. -/

/-- Number of buckets (`ZTLF_ISET_BUCKET_COUNT`). -/
def ZTLF_ISET_BUCKET_COUNT : Nat := 8388608

/-- Modelled from the spec: one application of the xorshift64* mixing
function from the missing `common.h`. -/
def ZTLF_xorshift64starOnce (x : Nat) : Nat :=
  let x1 := x ^^^ (x >>> 12)
  let x2 := x1 ^^^ ((x1 <<< 25) % M64)
  let x3 := x2 ^^^ (x2 >>> 27)
  (x3 * 2685821657736338717) % M64

/-- The bucket an element hashes to. -/
def isetBucket (i : Nat) : Nat := ZTLF_xorshift64starOnce i % ZTLF_ISET_BUCKET_COUNT

/-- `ZTLF_ISet`: an array of buckets, each a vector of stored values. -/
structure ISet where
  buckets : Nat → List Nat

/-- `ZTLF_ISet_new`: all buckets empty. -/
def ISet.new : ISet := ⟨fun _ => []⟩

/-- `ZTLF_ISet_put`: scan the element's bucket; if the value is present
return false and change nothing, else append it and return true. -/
def ISet.put (s : ISet) (i : Nat) : Bool × ISet :=
  let b := isetBucket i
  let v := s.buckets b
  if v.contains i then (false, s)
  else (true, ⟨fun j => if j = b then v ++ [i] else s.buckets j⟩)

/-- `ZTLF_ISet_contains`: scan the element's bucket. -/
def ISet.containsI (s : ISet) (i : Nat) : Bool := (s.buckets (isetBucket i)).contains i

/-! ## Theorems -/

/-- Prepending a common prefix preserves strict lexicographic order. -/
theorem lexLt_append_left (p : List Nat) {a b : List Nat} (h : lexLt a b = true) :
    lexLt (p ++ a) (p ++ b) = true := by
  induction p with
  | nil => simpa using h
  | cons x xs ih => simpa [lexLt] using ih

/-- Reading a written varint returns the value and leaves the tail. -/
theorem readUvarint_putUvarintAux (f : Nat) :
    ∀ n, n ≤ f → ∀ t : List Nat, readUvarint (putUvarintAux f n ++ t) = some (n, t) := by
  induction f with
  | zero =>
    intro n hn t
    have hn0 : n = 0 := by omega
    subst hn0
    simp [putUvarintAux, readUvarint]
  | succ f ih =>
    intro n hn t
    by_cases h : n < 128
    · simp [putUvarintAux, h, readUvarint]
    · have hlt : n / 128 < n := Nat.div_lt_self (by omega) (by omega)
      have h2 : ¬ (n % 128 + 128 < 128) := by omega
      simp only [putUvarintAux, h, if_false, List.cons_append, readUvarint, h2,
        ih (n / 128) (by omega) t]
      have h3 : n / 128 * 128 + (n % 128 + 128 - 128) = n := by omega
      rw [h3]

/-- Reading a written varint returns the value and leaves the tail. -/
theorem readUvarint_putUvarint (n : Nat) (t : List Nat) :
    readUvarint (putUvarint n ++ t) = some (n, t) :=
  readUvarint_putUvarintAux n n (Nat.le_refl n) t

/-- Consuming exactly the leading copy of `a` returns it and the tail. -/
theorem readExact_append (a t : List Nat) : readExact a.length (a ++ t) = some (a, t) := by
  unfold readExact
  rw [if_pos (by simp)]
  simp

/-- Reading a written length-prefixed byte string round-trips. -/
theorem readBytes_putBytes (b t : List Nat) : readBytes (putBytes b ++ t) = some (b, t) := by
  unfold readBytes putBytes
  rw [List.append_assoc, readUvarint_putUvarint]
  simpa using readExact_append b t

/-- Reading written links round-trips. -/
theorem readLinks_flatten (links : List (List Nat)) (t : List Nat)
    (h : ∀ x ∈ links, x.length = 32) :
    readLinks links.length (links.flatten ++ t) = some (links, t) := by
  induction links with
  | nil => simp [readLinks]
  | cons x xs ih =>
    have hx : x.length = 32 := h x (by simp)
    have hxs : ∀ y ∈ xs, y.length = 32 := fun y hy => h y (by simp [hy])
    simp only [List.length_cons, List.flatten_cons, List.append_assoc, readLinks]
    rw [← hx, readExact_append]
    simp [ih hxs]

/-- Reading one written selector round-trips. -/
theorem readSel_putSel (s : SelWire) (t : List Nat) :
    readSel (putSel s ++ t) = some (s, t) := by
  unfold readSel putSel
  rw [List.append_assoc, readBytes_putBytes]
  simp [readBytes_putBytes]

/-- Reading written selectors round-trips. -/
theorem readSels_flatten (sels : List SelWire) (t : List Nat) :
    readSels sels.length ((sels.map putSel).flatten ++ t) = some (sels, t) := by
  induction sels with
  | nil => simp [readSels]
  | cons x xs ih =>
    simp only [List.length_cons, List.map_cons, List.flatten_cons, List.append_assoc, readSels]
    rw [readSel_putSel]
    simp [ih]

/-- Unmarshal of a marshalled well-formed record returns the record exactly. -/
theorem unmarshal_marshal (r : RecordW) (h : r.wf) :
    RecordW.unmarshal r.marshal = some (r, []) := by
  obtain ⟨-, -, hlinks⟩ := h
  have : r.marshal = r.flags ::
      (putUvarint r.timestamp ++ (r.ownerType ::
        (putBytes r.ownerPub ++ (putUvarint r.links.length ++ (r.links.flatten ++
          (putUvarint r.sels.length ++ ((r.sels.map putSel).flatten ++
            (putBytes r.value ++ (putBytes r.cert ++ (putBytes r.work ++
              (putBytes r.sig ++ []))))))))))) := by
    simp [RecordW.marshal]
  rw [this]
  unfold RecordW.unmarshal
  rw [show ∀ x : Nat, ∀ l : List Nat, readByte (x :: l) = some (x, l) from fun _ _ => rfl]
  simp only [Option.some_bind]
  rw [readUvarint_putUvarint]
  simp only [Option.some_bind]
  rw [show ∀ x : Nat, ∀ l : List Nat, readByte (x :: l) = some (x, l) from fun _ _ => rfl]
  simp only [Option.some_bind]
  rw [readBytes_putBytes]
  simp only [Option.some_bind]
  rw [readUvarint_putUvarint]
  simp only [Option.some_bind]
  rw [readLinks_flatten _ _ hlinks]
  simp only [Option.some_bind]
  rw [readUvarint_putUvarint]
  simp only [Option.some_bind]
  rw [readSels_flatten]
  simp only [Option.some_bind]
  rw [readBytes_putBytes]
  simp only [Option.some_bind]
  rw [readBytes_putBytes]
  simp only [Option.some_bind]
  rw [readBytes_putBytes]
  simp only [Option.some_bind]
  rw [readBytes_putBytes]
  simp only [Option.some_bind]

/-! ## Output-length facts about the hashes -/

/-- `beBytes n v` has exactly `n` bytes. -/
theorem beBytes_length (n v : Nat) : (beBytes n v).length = n := by
  induction n generalizing v with
  | zero => rfl
  | succ k ih => simp [beBytes, ih]

/-- SHA-256 digests are 32 bytes. -/
theorem sha256_length (m : List Nat) : (sha256 m).length = 32 := by
  simp [sha256, beBytes_length]

/-- Shandwich256 digests are 32 bytes. -/
theorem Shandwich256_length (m : List Nat) : (Shandwich256 m).length = 32 := by
  simp [Shandwich256, sha256_length]

/-- The keystream has exactly the requested length. -/
theorem keystream_length (k mat : List Nat) (n : Nat) : (keystream k mat n).length = n := by
  have haux : ∀ L : List (List Nat), (∀ x ∈ L, x.length = 32) →
      L.flatten.length = 32 * L.length := by
    intro L hL
    induction L with
    | nil => simp
    | cons x xs ih =>
      have hx := hL x (by simp)
      have hxs := fun y hy => hL y (List.mem_cons_of_mem _ hy)
      simp [ih hxs, hx, Nat.mul_succ, Nat.add_comm]
  unfold keystream
  rw [List.length_take, haux _ (by simp [Shandwich256_length])]
  simp only [List.length_map, List.length_range]
  have h1 := Nat.div_add_mod (n + 31) 32
  have h2 : (n + 31) % 32 < 32 := Nat.mod_lt _ (by omega)
  omega

/-- Masking then unmasking under the same key and material is the identity. -/
theorem maskBytes_maskBytes (k mat v : List Nat) :
    maskBytes k mat (maskBytes k mat v) = v := by
  have hxc : ∀ ks w : List Nat, w.length ≤ ks.length →
      List.zipWith (fun a b => a ^^^ b) (List.zipWith (fun a b => a ^^^ b) w ks) ks = w := by
    intro ks w
    induction w generalizing ks with
    | nil => simp
    | cons a as ih =>
      intro hlen
      cases ks with
      | nil => simp at hlen
      | cons b bs =>
        simp only [List.zipWith_cons_cons, List.length_cons] at hlen ⊢
        rw [Nat.xor_cancel_right, ih bs (by omega)]
  unfold maskBytes
  have hlen : (List.zipWith (fun a b => a ^^^ b) v
      (keystream k mat v.length)).length = v.length := by
    simp [List.length_zipWith, keystream_length]
  rw [hlen]
  exact hxc _ v (by rw [keystream_length])

/-- Effect of one dispatched key on the `Name` field. -/
theorem gpDispatch_Name (ngp : GenesisParameters) (t : String) (g : GenesisParameters) :
    (gpDispatch ngp t g).Name = if t = "name" then ngp.Name else g.Name := by
  unfold gpDispatch
  simp only [apply_ite GenesisParameters.Name]
  by_cases h : t = "name" <;> simp [h]

/-- Effect of one dispatched key on the `Contact` field. -/
theorem gpDispatch_Contact (ngp : GenesisParameters) (t : String) (g : GenesisParameters) :
    (gpDispatch ngp t g).Contact = if t = "contact" then ngp.Contact else g.Contact := by
  unfold gpDispatch
  simp only [apply_ite GenesisParameters.Contact]
  by_cases h : t = "contact" <;> simp [h]

/-- Effect of one dispatched key on the `Comment` field. -/
theorem gpDispatch_Comment (ngp : GenesisParameters) (t : String) (g : GenesisParameters) :
    (gpDispatch ngp t g).Comment = if t = "comment" then ngp.Comment else g.Comment := by
  unfold gpDispatch
  simp only [apply_ite GenesisParameters.Comment]
  by_cases h : t = "comment" <;> simp [h]

/-- Effect of one dispatched key on the `RootCertificateAuthorities` field. -/
theorem gpDispatch_RootCertificateAuthorities (ngp : GenesisParameters) (t : String) (g : GenesisParameters) :
    (gpDispatch ngp t g).RootCertificateAuthorities = if t = "rootcertificateauthorities" then ngp.RootCertificateAuthorities else g.RootCertificateAuthorities := by
  unfold gpDispatch
  simp only [apply_ite GenesisParameters.RootCertificateAuthorities]
  by_cases h : t = "rootcertificateauthorities" <;> simp [h]

/-- Effect of one dispatched key on the `CertificateRequired` field. -/
theorem gpDispatch_CertificateRequired (ngp : GenesisParameters) (t : String) (g : GenesisParameters) :
    (gpDispatch ngp t g).CertificateRequired = if t = "certificaterequired" then ngp.CertificateRequired else g.CertificateRequired := by
  unfold gpDispatch
  simp only [apply_ite GenesisParameters.CertificateRequired]
  by_cases h : t = "certificaterequired" <;> simp [h]

/-- Effect of one dispatched key on the `WorkRequired` field. -/
theorem gpDispatch_WorkRequired (ngp : GenesisParameters) (t : String) (g : GenesisParameters) :
    (gpDispatch ngp t g).WorkRequired = if t = "workrequired" then ngp.WorkRequired else g.WorkRequired := by
  unfold gpDispatch
  simp only [apply_ite GenesisParameters.WorkRequired]
  by_cases h : t = "workrequired" <;> simp [h]

/-- Effect of one dispatched key on the `LinkKey` field. -/
theorem gpDispatch_LinkKey (ngp : GenesisParameters) (t : String) (g : GenesisParameters) :
    (gpDispatch ngp t g).LinkKey = if t = "linkkey" then ngp.LinkKey else g.LinkKey := by
  unfold gpDispatch
  simp only [apply_ite GenesisParameters.LinkKey]
  by_cases h : t = "linkkey" <;> simp [h]

/-- Effect of one dispatched key on the `TimestampFloor` field. -/
theorem gpDispatch_TimestampFloor (ngp : GenesisParameters) (t : String) (g : GenesisParameters) :
    (gpDispatch ngp t g).TimestampFloor = if t = "timestampfloor" then ngp.TimestampFloor else g.TimestampFloor := by
  unfold gpDispatch
  simp only [apply_ite GenesisParameters.TimestampFloor]
  by_cases h : t = "timestampfloor" <;> simp [h]

/-- Effect of one dispatched key on the `RecordMinLinks` field. -/
theorem gpDispatch_RecordMinLinks (ngp : GenesisParameters) (t : String) (g : GenesisParameters) :
    (gpDispatch ngp t g).RecordMinLinks = if t = "recordminlinks" then ngp.RecordMinLinks else g.RecordMinLinks := by
  unfold gpDispatch
  simp only [apply_ite GenesisParameters.RecordMinLinks]
  by_cases h : t = "recordminlinks" <;> simp [h]

/-- Effect of one dispatched key on the `RecordMaxValueSize` field. -/
theorem gpDispatch_RecordMaxValueSize (ngp : GenesisParameters) (t : String) (g : GenesisParameters) :
    (gpDispatch ngp t g).RecordMaxValueSize = if t = "recordmaxvaluesize" then ngp.RecordMaxValueSize else g.RecordMaxValueSize := by
  unfold gpDispatch
  simp only [apply_ite GenesisParameters.RecordMaxValueSize]
  by_cases h : t = "recordmaxvaluesize" <;> simp [h]

/-- Effect of one dispatched key on the `RecordMaxSize` field. -/
theorem gpDispatch_RecordMaxSize (ngp : GenesisParameters) (t : String) (g : GenesisParameters) :
    (gpDispatch ngp t g).RecordMaxSize = if t = "recordmaxsize" then ngp.RecordMaxSize else g.RecordMaxSize := by
  unfold gpDispatch
  simp only [apply_ite GenesisParameters.RecordMaxSize]
  by_cases h : t = "recordmaxsize" <;> simp [h]

/-- Effect of one dispatched key on the `RecordMaxForwardTimeDrift` field. -/
theorem gpDispatch_RecordMaxForwardTimeDrift (ngp : GenesisParameters) (t : String) (g : GenesisParameters) :
    (gpDispatch ngp t g).RecordMaxForwardTimeDrift = if t = "recordmaxforwardtimedrift" then ngp.RecordMaxForwardTimeDrift else g.RecordMaxForwardTimeDrift := by
  unfold gpDispatch
  simp only [apply_ite GenesisParameters.RecordMaxForwardTimeDrift]
  by_cases h : t = "recordmaxforwardtimedrift" <;> simp [h]

/-- Effect of one dispatched key on the `AmendableFields` field. -/
theorem gpDispatch_AmendableFields (ngp : GenesisParameters) (t : String) (g : GenesisParameters) :
    (gpDispatch ngp t g).AmendableFields = if t = "amendablefields" then ngp.AmendableFields else g.AmendableFields := by
  unfold gpDispatch
  simp only [apply_ite GenesisParameters.AmendableFields]
  by_cases h : t = "amendablefields" <;> simp [h]

/-- Generic key-loop characterization: any projection of the folded state is
the `ngp` value when a present key applies to the projected field (named by
its lowercase name `fname`), else the starting value. -/
theorem gpFold_proj {α : Type} (init : Bool) (af : List String) (ngp : GenesisParameters)
    (proj : GenesisParameters → α) (fname : String)
    (happ : ∀ k g, proj (gpApplyKey ngp k g) = if k.toLower = fname then proj ngp else proj g) :
    ∀ (keys : List String) (g : GenesisParameters),
    proj (keys.foldl (gpStep init af ngp) g) =
      cond (keys.any fun k => (k.toLower == fname) && (!init || af.any fun a => eqFold a k))
        (proj ngp) (proj g) := by
  intro keys
  induction keys with
  | nil => intro g; simp
  | cons k ks ih =>
    intro g
    simp only [List.foldl_cons, List.any_cons]
    rw [ih]
    rcases Bool.eq_false_or_eq_true
        (ks.any fun k => (k.toLower == fname) && (!init || af.any fun a => eqFold a k)) with
      hany | hany
    · simp [hany]
    · simp only [hany, Bool.or_false, Bool.cond_false]
      rcases Bool.eq_false_or_eq_true init with hi | hi <;>
        rcases Bool.eq_false_or_eq_true (af.any fun a => eqFold a k) with ha | ha <;>
          rcases Bool.eq_false_or_eq_true (k.toLower == fname) with hf | hf <;>
            simp only [gpStep, hi, ha, hf] <;>
              simp_all [happ]

/-- Claim C3: `GenesisParameters.Update` marks the receiver initialized and
overwrites exactly those parameters whose (case-insensitively matched)
field name is present among the document keys and — except on the first
application, when every present field overwrites — matches an entry of the
amendable-field list that was current at the start of the call; all other
parameters, and all unknown keys, are silently ignored. -/
theorem genesisParameters_update_spec (gp : GenesisParameters) (keys : List String)
    (ngp : GenesisParameters) :
    (gp.update keys ngp).initialized = true ∧
    (gp.update keys ngp).Name =
      cond (keyApplied gp keys "name") ngp.Name gp.Name ∧
    (gp.update keys ngp).Contact =
      cond (keyApplied gp keys "contact") ngp.Contact gp.Contact ∧
    (gp.update keys ngp).Comment =
      cond (keyApplied gp keys "comment") ngp.Comment gp.Comment ∧
    (gp.update keys ngp).RootCertificateAuthorities =
      cond (keyApplied gp keys "rootcertificateauthorities") ngp.RootCertificateAuthorities gp.RootCertificateAuthorities ∧
    (gp.update keys ngp).CertificateRequired =
      cond (keyApplied gp keys "certificaterequired") ngp.CertificateRequired gp.CertificateRequired ∧
    (gp.update keys ngp).WorkRequired =
      cond (keyApplied gp keys "workrequired") ngp.WorkRequired gp.WorkRequired ∧
    (gp.update keys ngp).LinkKey =
      cond (keyApplied gp keys "linkkey") ngp.LinkKey gp.LinkKey ∧
    (gp.update keys ngp).TimestampFloor =
      cond (keyApplied gp keys "timestampfloor") ngp.TimestampFloor gp.TimestampFloor ∧
    (gp.update keys ngp).RecordMinLinks =
      cond (keyApplied gp keys "recordminlinks") ngp.RecordMinLinks gp.RecordMinLinks ∧
    (gp.update keys ngp).RecordMaxValueSize =
      cond (keyApplied gp keys "recordmaxvaluesize") ngp.RecordMaxValueSize gp.RecordMaxValueSize ∧
    (gp.update keys ngp).RecordMaxSize =
      cond (keyApplied gp keys "recordmaxsize") ngp.RecordMaxSize gp.RecordMaxSize ∧
    (gp.update keys ngp).RecordMaxForwardTimeDrift =
      cond (keyApplied gp keys "recordmaxforwardtimedrift") ngp.RecordMaxForwardTimeDrift gp.RecordMaxForwardTimeDrift ∧
    (gp.update keys ngp).AmendableFields =
      cond (keyApplied gp keys "amendablefields") ngp.AmendableFields gp.AmendableFields := by
  unfold GenesisParameters.update keyApplied
  exact ⟨rfl,
    gpFold_proj gp.initialized gp.AmendableFields ngp (fun g => g.Name) "name"
      (fun k g => gpDispatch_Name ngp k.toLower g) keys gp,
    gpFold_proj gp.initialized gp.AmendableFields ngp (fun g => g.Contact) "contact"
      (fun k g => gpDispatch_Contact ngp k.toLower g) keys gp,
    gpFold_proj gp.initialized gp.AmendableFields ngp (fun g => g.Comment) "comment"
      (fun k g => gpDispatch_Comment ngp k.toLower g) keys gp,
    gpFold_proj gp.initialized gp.AmendableFields ngp (fun g => g.RootCertificateAuthorities) "rootcertificateauthorities"
      (fun k g => gpDispatch_RootCertificateAuthorities ngp k.toLower g) keys gp,
    gpFold_proj gp.initialized gp.AmendableFields ngp (fun g => g.CertificateRequired) "certificaterequired"
      (fun k g => gpDispatch_CertificateRequired ngp k.toLower g) keys gp,
    gpFold_proj gp.initialized gp.AmendableFields ngp (fun g => g.WorkRequired) "workrequired"
      (fun k g => gpDispatch_WorkRequired ngp k.toLower g) keys gp,
    gpFold_proj gp.initialized gp.AmendableFields ngp (fun g => g.LinkKey) "linkkey"
      (fun k g => gpDispatch_LinkKey ngp k.toLower g) keys gp,
    gpFold_proj gp.initialized gp.AmendableFields ngp (fun g => g.TimestampFloor) "timestampfloor"
      (fun k g => gpDispatch_TimestampFloor ngp k.toLower g) keys gp,
    gpFold_proj gp.initialized gp.AmendableFields ngp (fun g => g.RecordMinLinks) "recordminlinks"
      (fun k g => gpDispatch_RecordMinLinks ngp k.toLower g) keys gp,
    gpFold_proj gp.initialized gp.AmendableFields ngp (fun g => g.RecordMaxValueSize) "recordmaxvaluesize"
      (fun k g => gpDispatch_RecordMaxValueSize ngp k.toLower g) keys gp,
    gpFold_proj gp.initialized gp.AmendableFields ngp (fun g => g.RecordMaxSize) "recordmaxsize"
      (fun k g => gpDispatch_RecordMaxSize ngp k.toLower g) keys gp,
    gpFold_proj gp.initialized gp.AmendableFields ngp (fun g => g.RecordMaxForwardTimeDrift) "recordmaxforwardtimedrift"
      (fun k g => gpDispatch_RecordMaxForwardTimeDrift ngp k.toLower g) keys gp,
    gpFold_proj gp.initialized gp.AmendableFields ngp (fun g => g.AmendableFields) "amendablefields"
      (fun k g => gpDispatch_AmendableFields ngp k.toLower g) keys gp⟩

/-- `getD` at the length of the left part of an append. -/
theorem getD_append_length {α : Type} (l1 l2 : List α) (d : α) :
    (l1 ++ l2).getD l1.length d = l2.getD 0 d := by
  induction l1 with
  | nil => rfl
  | cons a t ih => simpa using ih

/-- `getD` below a `take` bound sees through the `take`. -/
theorem getD_take_lt {α : Type} (l : List α) (m j : Nat) (d : α) (h : j < m) :
    (l.take m).getD j d = l.getD j d := by
  induction l generalizing m j with
  | nil => simp
  | cons a t ih =>
    cases m with
    | zero => exact absurd h (Nat.not_lt_zero j)
    | succ m2 =>
      cases j with
      | zero => rfl
      | succ j2 => simpa using ih m2 j2 (by omega)

/-- Indexing and prefix facts for a list whose `(i+1)`-prefix is known. -/
theorem take_succ_elem_spec (L recs : List RecordW) (r : RecordW) (i : Nat)
    (hlen : recs.length = i) (htake : L.take (i + 1) = recs ++ [r]) :
    L.getD i dRec = r ∧ L.take i = recs := by
  constructor
  · have h1 : L.getD i dRec = (L.take (i + 1)).getD i dRec :=
      (getD_take_lt _ _ _ _ (by omega)).symm
    rw [h1, htake, ← hlen, getD_append_length]
    rfl
  · have h2 : L.take i = (L.take (i + 1)).take i := by
      rw [List.take_take, Nat.min_eq_left (by omega)]
    rw [h2, htake, ← hlen, List.take_left]

/-- Loop invariant of `genesisLoop`: starting from `i` records whose hashes
are `links`, it appends `n` records; the `j`-th output record (for
`i ≤ j < i + n`) is an empty record linking to the hashes of all earlier
output records, timestamped `now + j`. -/
theorem genesisLoop_spec (owner : OwnerM) (wg : Bool) (now : Nat) :
    ∀ (n i : Nat) (recs : List RecordW) (links : List (List Nat)),
    links = recs.map RecordW.recHash →
    recs.length = i →
    (genesisLoop owner wg now n i recs links).length = i + n ∧
    (genesisLoop owner wg now n i recs links).take i = recs ∧
    ∀ j, i ≤ j → j < i + n →
      (genesisLoop owner wg now n i recs links).getD j dRec =
        NewRecordM [] (((genesisLoop owner wg now n i recs links).take j).map RecordW.recHash)
          none [] [] [] (now + j) wg owner := by
  intro n
  induction n with
  | zero =>
    intro i recs links _ hlen
    refine ⟨by simp [genesisLoop, hlen], by simp [genesisLoop, ← hlen], ?_⟩
    intro j h1 h2
    omega
  | succ m ih =>
    intro i recs links hlinks hlen
    have hstep : genesisLoop owner wg now (m + 1) i recs links =
        genesisLoop owner wg now m (i + 1)
          (recs ++ [NewRecordM [] links none [] [] [] (now + i) wg owner])
          (links ++ [(NewRecordM [] links none [] [] [] (now + i) wg owner).recHash]) := rfl
    obtain ⟨ihl, iht, ihg⟩ := ih (i + 1)
      (recs ++ [NewRecordM [] links none [] [] [] (now + i) wg owner])
      (links ++ [(NewRecordM [] links none [] [] [] (now + i) wg owner).recHash])
      (by simp [hlinks]) (by simp [hlen])
    obtain ⟨hgetD, htakei⟩ := take_succ_elem_spec _ recs
      (NewRecordM [] links none [] [] [] (now + i) wg owner) i hlen iht
    rw [hstep]
    refine ⟨by omega, htakei, ?_⟩
    intro j hj1 hj2
    rcases Nat.eq_or_lt_of_le hj1 with hj | hj
    · subst hj
      rw [hgetD, htakei, ← hlinks]
    · exact ihg j (by omega) (by omega)

/-- Fields of a freshly built record that do not depend on the masking key. -/
theorem NewRecordM_fields (v : List Nat) (links : List (List Nat))
    (mk : Option (List Nat)) (sn so : List (List Nat)) (c : List Nat) (ts : Nat)
    (w : Bool) (o : OwnerM) :
    (NewRecordM v links mk sn so c ts w o).timestamp = ts ∧
    (NewRecordM v links mk sn so c ts w o).ownerType = o.typeTag ∧
    (NewRecordM v links mk sn so c ts w o).ownerPub = o.pub ∧
    (NewRecordM v links mk sn so c ts w o).links = links ∧
    (NewRecordM v links mk sn so c ts w o).work =
      (if w then Shandwich256 (putUvarint ts ++ v) else []) ∧
    (NewRecordM v links mk sn so c ts w o).sig =
      signM o (NewRecordM v links mk sn so c ts w o).signable := by
  cases mk <;> exact ⟨rfl, rfl, rfl, rfl, rfl, rfl⟩

/-- The stored value of a record built without a masking key is the input. -/
theorem NewRecordM_value_plain (v : List Nat) (links : List (List Nat))
    (sn so : List (List Nat)) (c : List Nat) (ts : Nat) (w : Bool) (o : OwnerM) :
    (NewRecordM v links none sn so c ts w o).value = v := rfl

/-- A record's work field is nonempty exactly when work was requested. -/
theorem NewRecordM_work_iff (v : List Nat) (links : List (List Nat))
    (mk : Option (List Nat)) (sn so : List (List Nat)) (c : List Nat) (ts : Nat)
    (w : Bool) (o : OwnerM) :
    ((NewRecordM v links mk sn so c ts w o).work ≠ [] ↔ w = true) := by
  obtain ⟨-, -, -, -, hw, -⟩ := NewRecordM_fields v links mk sn so c ts w o
  rw [hw]
  cases w with
  | false => simp
  | true =>
    simp only [if_true, iff_true, ne_eq]
    intro h
    have := Shandwich256_length (putUvarint ts ++ v)
    rw [h] at this
    simp at this

/-- Claim C4: `CreateGenesisRecords(ownerType, params)` returns a first
record whose value is the JSON encoding of the parameters, followed by
`max(0, RecordMinLinks - 1)` empty-value records, the `i`-th record linking
to the hashes of all `i` earlier records; all records are signed by the one
freshly generated owner, the `i`-th record's timestamp is `now() + i`
seconds, and proof of work is attached iff `WorkRequired`. -/
theorem createGenesisRecords_spec (o : OwnerM) (gp : GenesisParameters) (now : Nat) :
    (CreateGenesisRecords o gp now).length = 1 + (gp.RecordMinLinks - 1) ∧
    ((CreateGenesisRecords o gp now).getD 0 dRec).value = gpJsonBytes gp ∧
    ((CreateGenesisRecords o gp now).getD 0 dRec).links = [] ∧
    ∀ i, i < (CreateGenesisRecords o gp now).length →
      ((CreateGenesisRecords o gp now).getD i dRec).timestamp = now + i ∧
      ((CreateGenesisRecords o gp now).getD i dRec).ownerType = o.typeTag ∧
      ((CreateGenesisRecords o gp now).getD i dRec).ownerPub = o.pub ∧
      ((CreateGenesisRecords o gp now).getD i dRec).sig =
        signM o ((CreateGenesisRecords o gp now).getD i dRec).signable ∧
      (((CreateGenesisRecords o gp now).getD i dRec).work ≠ [] ↔ gp.WorkRequired = true) ∧
      (0 < i →
        ((CreateGenesisRecords o gp now).getD i dRec).value = [] ∧
        ((CreateGenesisRecords o gp now).getD i dRec).links =
          ((CreateGenesisRecords o gp now).take i).map RecordW.recHash) := by
  obtain ⟨hl, ht, hg⟩ := genesisLoop_spec o gp.WorkRequired now (gp.RecordMinLinks - 1) 1
    [NewRecordM (gpJsonBytes gp) [] none [] [] [] now gp.WorkRequired o]
    [(NewRecordM (gpJsonBytes gp) [] none [] [] [] now gp.WorkRequired o).recHash]
    (by simp) (by simp)
  have hzero : (CreateGenesisRecords o gp now).getD 0 dRec =
      NewRecordM (gpJsonBytes gp) [] none [] [] [] now gp.WorkRequired o := by
    unfold CreateGenesisRecords
    have h1 := getD_take_lt (genesisLoop o gp.WorkRequired now (gp.RecordMinLinks - 1) 1
      [NewRecordM (gpJsonBytes gp) [] none [] [] [] now gp.WorkRequired o]
      [(NewRecordM (gpJsonBytes gp) [] none [] [] [] now gp.WorkRequired o).recHash])
      1 0 dRec (by omega)
    rw [← h1, ht]
    rfl
  refine ⟨hl, ?_, ?_, ?_⟩
  · rw [hzero, NewRecordM_value_plain]
  · rw [hzero]
    exact (NewRecordM_fields _ _ _ _ _ _ _ _ _).2.2.2.1
  · intro i hi
    rcases Nat.eq_zero_or_pos i with hi0 | hi0
    · subst hi0
      rw [hzero]
      obtain ⟨f1, f2, f3, -, -, f6⟩ := NewRecordM_fields (gpJsonBytes gp) [] none [] [] []
        now gp.WorkRequired o
      refine ⟨by rw [f1]; omega, by rw [f2], by rw [f3], f6, ?_, ?_⟩
      · exact NewRecordM_work_iff _ _ _ _ _ _ _ _ _
      · intro h
        exact absurd h (by omega)
    · have hrec := hg i hi0 (by rw [CreateGenesisRecords] at hi; omega)
      have hrec' : (CreateGenesisRecords o gp now).getD i dRec =
          NewRecordM [] (((CreateGenesisRecords o gp now).take i).map RecordW.recHash)
            none [] [] [] (now + i) gp.WorkRequired o := hrec
      rw [hrec']
      obtain ⟨f1, f2, f3, f4, -, f6⟩ := NewRecordM_fields []
        (((CreateGenesisRecords o gp now).take i).map RecordW.recHash) none [] [] []
        (now + i) gp.WorkRequired o
      refine ⟨f1, f2, f3, ?_, NewRecordM_work_iff _ _ _ _ _ _ _ _ _, ?_⟩
      · rw [← hrec']
        rw [hrec']
        exact f6
      · intro _
        exact ⟨NewRecordM_value_plain _ _ _ _ _ _ _ _, f4⟩

/-- Claim C5: for a fixed name, `MakeSelectorKey` is strictly monotone in
the ordinal under lexicographic byte order. -/
theorem makeSelectorKey_monotonic (name a b : List Nat) (h : lexLt a b = true) :
    lexLt (MakeSelectorKey name a) (MakeSelectorKey name b) = true :=
  lexLt_append_left _ h

/-- Witness for C5 at a concrete name and ordinal pair. -/
theorem makeSelectorKey_monotonic_witness :
    lexLt [48] [49] = true ∧
      lexLt (MakeSelectorKey [110, 97, 109, 101] [48])
        (MakeSelectorKey [110, 97, 109, 101] [49]) = true :=
  ⟨by decide, makeSelectorKey_monotonic [110, 97, 109, 101] [48] [49] (by decide)⟩

/-- Claim C6: the key of a selector built by `set(name, ordinal, h)` equals
`MakeSelectorKey(name, ordinal)` for every claim hash `h` — in particular
the key does not depend on `h`. -/
theorem selectorKey_eq_makeSelectorKey (name ordinal h : List Nat) :
    (SelectorM.set name ordinal h).key h = MakeSelectorKey name ordinal := by
  unfold SelectorM.set SelectorM.key MakeSelectorKey claimRecover
  have hlen : (selNameKey name ++ h).length - h.length = (selNameKey name).length := by
    simp
  rw [hlen, List.take_left]

/-- Claim C7, counterexample: at the pinned test input, the digest required
by `TestCore` (`fcb43f70…`, which `Shandwich256` reproduces) is not the
concatenation of the first 16 bytes of SHA3-512 and the first 16 bytes of
SHA-256 that the spec's formula prescribes. -/
theorem shandwich256_formula_counterexample :
    Shandwich256 hovercraftBytes = hovercraftDigest ∧
    (sha3_512 hovercraftBytes).take 16 ++ (sha256 hovercraftBytes).take 16 ≠
      hovercraftDigest := by
  constructor
  · decide
  · decide

/-- Claim C7, amended: `Shandwich256(x)` is SHA-256 of the concatenation of
the SHA-512 and SHA3-512 digests of `x`; the incremental form agrees with
the one-shot form on any sequence of written chunks; and the digest of the
pinned test input is `fcb43f70…`. -/
theorem shandwich256_spec :
    (∀ x : List Nat, Shandwich256 x = sha256 (sha512 x ++ sha3_512 x)) ∧
    (∀ chunks : List (List Nat),
      (chunks.foldl Shandwich256H.write NewShandwich256).sum = Shandwich256 chunks.flatten) ∧
    Shandwich256 hovercraftBytes = hovercraftDigest := by
  refine ⟨fun x => rfl, ?_, by decide⟩
  have hbuf : ∀ (chunks : List (List Nat)) (h : Shandwich256H),
      (chunks.foldl Shandwich256H.write h).buf = h.buf ++ chunks.flatten := by
    intro chunks
    induction chunks with
    | nil => intro h; simp
    | cons c cs ih => intro h; simp [Shandwich256H.write, ih]
  intro chunks
  unfold Shandwich256H.sum
  rw [hbuf]
  rfl

/-- Claim C8, counterexample: for a record created with the non-nil masking
key `[97]` and an empty value, `GetValue` under the different key `[98]`
returns the original (empty) value rather than different bytes — a stream
cipher leaves an empty plaintext unchanged under any key. -/
theorem getValue_wrong_key_counterexample :
    (NewRecordM [] [] (some [97]) [] [] [] 5 false ⟨0, [1]⟩).getValue [98] = some [] ∧
    ¬ (([98] : List Nat) = [97]) :=
  ⟨rfl, by decide⟩

/-- Claim C8, amended: for a record created with a non-nil masking key `k`,
`GetValue(k)` returns the original value; `GetValue` with a key different
from `k` also returns without error, yielding the stored bytes re-masked
under the wrong keystream — pseudo-random bytes, unauthenticated, which
differ from the original value on the test's record (though not for every
record: an empty value is returned unchanged under any key). -/
theorem getValue_masking_spec :
    (∀ (v k : List Nat) (links : List (List Nat)) (sn so : List (List Nat))
        (c : List Nat) (ts : Nat) (w : Bool) (o : OwnerM),
      (NewRecordM v links (some k) sn so c ts w o).getValue k = some v) ∧
    ((NewRecordM [49, 50, 51, 52] [] (some [109, 107]) [] [] [] 7 false
        ⟨0, [3]⟩).getValue [119, 107]).isSome = true ∧
    (NewRecordM [49, 50, 51, 52] [] (some [109, 107]) [] [] [] 7 false
        ⟨0, [3]⟩).getValue [119, 107] ≠ some [49, 50, 51, 52] := by
  refine ⟨?_, ?_, ?_⟩
  · intro v k links sn so c ts w o
    show RecordW.getValue (NewRecordM v links (some k) sn so c ts w o) k = some v
    unfold NewRecordM RecordW.getValue
    simp [maskBytes_maskBytes]
  · decide
  · decide

/-- `any` is determined by membership. -/
theorem any_congr_mem {α : Type} (l1 l2 : List α) (p : α → Bool)
    (h : ∀ x, x ∈ l1 ↔ x ∈ l2) : l1.any p = l2.any p := by
  rcases Bool.eq_false_or_eq_true (l1.any p) with h1 | h1
  · rcases List.any_eq_true.mp h1 with ⟨x, hx, hp⟩
    rw [h1, List.any_eq_true.mpr ⟨x, (h x).mp hx, hp⟩]
  · rcases Bool.eq_false_or_eq_true (l2.any p) with h2 | h2
    · rcases List.any_eq_true.mp h2 with ⟨x, hx, hp⟩
      rw [List.any_eq_true.mpr ⟨x, (h x).mpr hx, hp⟩] at h1
      exact Bool.noConfusion h1
    · rw [h1, h2]

/-- `any` respects pointwise equal predicates. -/
theorem any_congr_pt {α : Type} (l : List α) (p q : α → Bool)
    (h : ∀ a ∈ l, p a = q a) : l.any p = l.any q := by
  induction l with
  | nil => rfl
  | cons a t ih =>
    simp only [List.any_cons, h a (by simp), ih fun b hb => h b (by simp [hb])]

/-- Bounded reachability only depends on the membership of the record
list. -/
theorem reachB_congr (recs1 recs2 : List StoreRec)
    (h : ∀ x, x ∈ recs1 ↔ x ∈ recs2) :
    ∀ fuel a b, reachB recs1 fuel a b = reachB recs2 fuel a b := by
  intro fuel
  induction fuel with
  | zero => intro a b; rfl
  | succ f ih =>
    intro a b
    unfold reachB
    have h2 : recs1.any (fun r => r.rid == a && r.links.any fun l => reachB recs1 f l b) =
        recs2.any (fun r => r.rid == a && r.links.any fun l => reachB recs2 f l b) := by
      have hpt : ∀ r : StoreRec,
          (r.rid == a && r.links.any fun l => reachB recs1 f l b) =
          (r.rid == a && r.links.any fun l => reachB recs2 f l b) := by
        intro r
        have : (r.links.any fun l => reachB recs1 f l b) =
            (r.links.any fun l => reachB recs2 f l b) := by
          apply any_congr_pt
          intro l _
          exact ih l b
        rw [this]
      calc recs1.any (fun r => r.rid == a && r.links.any fun l => reachB recs1 f l b)
          = recs1.any (fun r => r.rid == a && r.links.any fun l => reachB recs2 f l b) := by
            apply any_congr_pt
            intro r _
            exact hpt r
        _ = recs2.any (fun r => r.rid == a && r.links.any fun l => reachB recs2 f l b) :=
            any_congr_mem _ _ _ h
    rw [h2]

/-- Steady-state weights agree on stores whose record lists are
permutations of each other. -/
theorem weight_perm {s1 s2 : Store} (hp : s1.recs.Perm s2.recs) (a : Nat) :
    s1.weight a = s2.weight a := by
  unfold Store.weight
  have hmem := fun x => hp.mem_iff (a := x)
  have hlen := hp.length_eq
  have hcongr : s1.recs.map (fun r =>
      if reachB s1.recs s1.recs.length r.rid a = true then r.ownWeight else 0) =
      s1.recs.map (fun r =>
        if reachB s2.recs s2.recs.length r.rid a = true then r.ownWeight else 0) := by
    apply List.map_congr_left
    intro r _
    rw [hlen, reachB_congr s1.recs s2.recs hmem]
  rw [hcongr]
  exact (hp.map _).sum_eq

/-- Tuple codes agree on stores whose record lists are permutations. -/
theorem tupleCode_perm {s1 s2 : Store} (hp : s1.recs.Perm s2.recs) (r : StoreRec) :
    tupleCode s1 r = tupleCode s2 r := by
  unfold tupleCode
  rw [weight_perm hp]

/-- `crc64` agrees on stores whose record lists are permutations. -/
theorem crc64_perm {s1 s2 : Store} (hp : s1.recs.Perm s2.recs) :
    s1.crc64 = s2.crc64 := by
  unfold Store.crc64
  have h1 : s1.recs.map (tupleCode s1) = s1.recs.map (tupleCode s2) :=
    List.map_congr_left fun r _ => tupleCode_perm hp r
  have h2 : (s1.recs.map (tupleCode s2)).Perm (s2.recs.map (tupleCode s2)) := hp.map _
  have h3 : ((s1.recs.map (tupleCode s1)).insertionSort (· ≤ ·)) =
      ((s2.recs.map (tupleCode s2)).insertionSort (· ≤ ·)) := by
    rw [h1]
    apply List.eq_of_perm_of_sorted
      (((List.perm_insertionSort _ _).trans h2).trans (List.perm_insertionSort _ _).symm)
      (List.sorted_insertionSort _ _) (List.sorted_insertionSort _ _)
  rw [h3]

/-- Ingesting one record preserves permutation of store contents. -/
theorem put_yes (s : Store) (r : StoreRec)
    (h : (s.recs.any fun t => t.rid == r.rid) = true) : s.putRecord r = s := by
  unfold Store.putRecord
  rw [if_pos h]

theorem put_no (s : Store) (r : StoreRec)
    (h : (s.recs.any fun t => t.rid == r.rid) = false) :
    s.putRecord r = ⟨r :: s.recs⟩ := by
  unfold Store.putRecord
  rw [if_neg (by simp [h])]

theorem putRecord_perm {s1 s2 : Store} (hp : s1.recs.Perm s2.recs) (r : StoreRec) :
    (s1.putRecord r).recs.Perm (s2.putRecord r).recs := by
  have hany : (s1.recs.any fun x => x.rid == r.rid) =
      (s2.recs.any fun x => x.rid == r.rid) :=
    any_congr_mem _ _ _ fun x => hp.mem_iff
  rcases Bool.eq_false_or_eq_true (s2.recs.any fun x => x.rid == r.rid) with h | h
  · rw [put_yes s1 r (by rw [hany, h]), put_yes s2 r h]
    exact hp
  · rw [put_no s1 r (by rw [hany, h]), put_no s2 r h]
    exact hp.cons r

/-- Feeding a record list preserves permutation of store contents. -/
theorem feedRecords_congr {s1 s2 : Store} (hp : s1.recs.Perm s2.recs) (l : List StoreRec) :
    (feedRecords s1 l).recs.Perm (feedRecords s2 l).recs := by
  induction l generalizing s1 s2 with
  | nil => exact hp
  | cons r t ih => exact ih (putRecord_perm hp r)

/-- Two ingests of records with distinct-or-equal ids commute up to
permutation of store contents. -/
theorem putRecord_swap (s : Store) (x y : StoreRec) (hxy : x.rid = y.rid → x = y) :
    ((s.putRecord x).putRecord y).recs.Perm ((s.putRecord y).putRecord x).recs := by
  by_cases hr : x.rid = y.rid
  · rw [hxy hr]
  · have hry : ¬ (y.rid = x.rid) := fun h => hr h.symm
    have bxy : (x.rid == y.rid) = false := by simp [hr]
    have byx : (y.rid == x.rid) = false := by simp [hry]
    rcases Bool.eq_false_or_eq_true (s.recs.any fun t => t.rid == x.rid) with hx | hx <;>
      rcases Bool.eq_false_or_eq_true (s.recs.any fun t => t.rid == y.rid) with hy | hy
    · rw [put_yes s x hx, put_yes s y hy, put_yes s x hx]
    · rw [put_yes s x hx, put_no s y hy,
        put_yes ⟨y :: s.recs⟩ x (by simp [hx])]
    · rw [put_no s x hx, put_yes s y hy,
        put_yes ⟨x :: s.recs⟩ y (by simp [hy]), put_no s x hx]
    · rw [put_no s x hx, put_no s y hy,
        put_no ⟨x :: s.recs⟩ y (by simp [bxy, hy]),
        put_no ⟨y :: s.recs⟩ x (by simp [byx, hx])]
      exact List.Perm.swap x y s.recs

/-- Id-injectivity transfers along permutations. -/
theorem IdInj_perm {l1 l2 : List StoreRec} (hp : l1.Perm l2) (h : IdInj l1) : IdInj l2 :=
  fun r1 h1 r2 h2 => h r1 (hp.mem_iff.mpr h1) r2 (hp.mem_iff.mpr h2)

/-- Feeding permuted record lists (with consistent ids) into stores with
permuted contents yields stores with permuted contents. -/
theorem feedRecords_perm {l1 l2 : List StoreRec} (hp : l1.Perm l2) :
    IdInj l1 → ∀ s : Store, (feedRecords s l1).recs.Perm (feedRecords s l2).recs := by
  induction hp with
  | nil => intro _ s; exact List.Perm.refl _
  | cons x h ih =>
    intro hinj s
    have htail : IdInj _ := fun r1 h1 r2 h2 =>
      hinj r1 (List.mem_cons_of_mem x h1) r2 (List.mem_cons_of_mem x h2)
    exact ih htail (s.putRecord x)
  | swap x y l =>
    intro hinj s
    have hxy : y.rid = x.rid → y = x := fun h =>
      hinj y (by simp) x (by simp) h
    exact feedRecords_congr (putRecord_swap s y x hxy) l
  | trans h1 h2 ih1 ih2 =>
    intro hinj s
    exact (ih1 hinj s).trans (ih2 (IdInj_perm h1 hinj) s)

/-- Claim C1: two stores independently fed the same multiset of records
(with ids consistent with record identity, as record hashes are), each in
its own order, have equal `crc64` values once neither has pending links. -/
theorem db_crc64_convergence (l1 l2 : List StoreRec) (hp : l1.Perm l2) (hinj : IdInj l1)
    (hpend1 : (feedRecords ⟨[]⟩ l1).hasPending = false)
    (hpend2 : (feedRecords ⟨[]⟩ l2).hasPending = false) :
    (feedRecords ⟨[]⟩ l1).crc64 = (feedRecords ⟨[]⟩ l2).crc64 :=
  crc64_perm (feedRecords_perm hp hinj ⟨[]⟩)

/-- Witness for C1: two concrete two-record stores fed in opposite orders. -/
theorem db_crc64_convergence_witness :
    [(⟨1, [], 2⟩ : StoreRec), ⟨2, [1], 3⟩].Perm [⟨2, [1], 3⟩, ⟨1, [], 2⟩] ∧
    IdInj [⟨1, [], 2⟩, ⟨2, [1], 3⟩] ∧
    (feedRecords ⟨[]⟩ [⟨1, [], 2⟩, ⟨2, [1], 3⟩]).hasPending = false ∧
    (feedRecords ⟨[]⟩ [⟨2, [1], 3⟩, ⟨1, [], 2⟩]).hasPending = false ∧
    (feedRecords ⟨[]⟩ [⟨1, [], 2⟩, ⟨2, [1], 3⟩]).crc64 =
      (feedRecords ⟨[]⟩ [⟨2, [1], 3⟩, ⟨1, [], 2⟩]).crc64 := by
  have hperm : [(⟨1, [], 2⟩ : StoreRec), ⟨2, [1], 3⟩].Perm [⟨2, [1], 3⟩, ⟨1, [], 2⟩] :=
    List.Perm.swap _ _ _
  have hinj : IdInj [⟨1, [], 2⟩, ⟨2, [1], 3⟩] := by decide
  exact ⟨hperm, hinj, by decide, by decide,
    db_crc64_convergence _ _ hperm hinj (by decide) (by decide)⟩

/-- Claim C9: `Node.AddRecord` returns nil for every input and leaves the
node's database state unchanged — no ingest happens. -/
theorem node_addRecord_noop (n : NodeState) (recordData : List Nat) :
    (n.addRecord recordData).1 = none ∧ (n.addRecord recordData).2.db = n.db ∧
      (n.addRecord recordData).2 = n :=
  ⟨rfl, rfl, rfl⟩

/-- Claim C10: `put` returns true exactly when the element was not yet a
member; afterwards `contains` holds; and a repeated `put` of the same
element returns false and leaves the set unchanged. -/
theorem iset_put_contains (s : ISet) (i : Nat) (hi : i < M64) :
    (s.put i).1 = !(s.containsI i) ∧
    (s.put i).2.containsI i = true ∧
    (s.containsI i = true → s.put i = (false, s)) ∧
    ((s.put i).2.put i).1 = false ∧ ((s.put i).2.put i).2 = (s.put i).2 := by
  unfold ISet.put ISet.containsI
  by_cases hm : i ∈ s.buckets (isetBucket i)
  · simp [hm]
  · simp [hm]

/-- Witness for C10 on the empty set at element 3. -/
theorem iset_put_contains_witness :
    3 < M64 ∧
    ((ISet.new.put 3).1 = !(ISet.new.containsI 3) ∧
     (ISet.new.put 3).2.containsI 3 = true ∧
     (ISet.new.containsI 3 = true → ISet.new.put 3 = (false, ISet.new)) ∧
     ((ISet.new.put 3).2.put 3).1 = false ∧
     ((ISet.new.put 3).2.put 3).2 = (ISet.new.put 3).2) :=
  ⟨by decide, iset_put_contains ISet.new 3 (by decide)⟩

/-- Claim C2: unmarshalling the marshalled bytes of a well-formed record
succeeds, consumes exactly the serialization, and yields a record whose
hash is byte-equal to the original's. -/
theorem record_marshal_roundtrip (r : RecordW) (h : r.wf) :
    ∃ r2 : RecordW, RecordW.unmarshal r.marshal = some (r2, []) ∧
      r2.recHash = r.recHash :=
  ⟨r, unmarshal_marshal r h, rfl⟩

/-- Witness for C2 at a concrete record. -/
theorem record_marshal_roundtrip_witness :
    (⟨0, 1, 0, [5], [], [], [2], [], [], [9]⟩ : RecordW).wf ∧
    ∃ r2 : RecordW,
      RecordW.unmarshal (⟨0, 1, 0, [5], [], [], [2], [], [], [9]⟩ : RecordW).marshal =
        some (r2, []) ∧
      r2.recHash = (⟨0, 1, 0, [5], [], [], [2], [], [], [9]⟩ : RecordW).recHash :=
  ⟨by decide, record_marshal_roundtrip ⟨0, 1, 0, [5], [], [], [2], [], [], [9]⟩ (by decide)⟩

/-- Witness for C4 at concrete parameters, owner, time and index. -/
theorem createGenesisRecords_spec_witness :
    2 < (CreateGenesisRecords ⟨1, [7]⟩ { RecordMinLinks := 3 } 11).length ∧
    ((CreateGenesisRecords ⟨1, [7]⟩ { RecordMinLinks := 3 } 11).getD 2 dRec).timestamp =
      11 + 2 :=
  ⟨by decide,
    ((createGenesisRecords_spec ⟨1, [7]⟩ { RecordMinLinks := 3 } 11).2.2.2 2 (by decide)).1⟩

